import Mathlib

/-!
Verification of the ProfileStore core of the Ntu-thu-platform repository
(`db.py`, class `Database`), against its natural-language specification.

The shallow embedding below translates `db.py` into Lean:

* a database state is the list of rows of the `profiles` table, in rowid
  (storage) order: an `INSERT` appends a row, an `ON CONFLICT ... DO UPDATE`
  replaces the row in place;
* the SQLite function `lower` folds ASCII letters only, which is exactly
  `Char.toLower` of Lean; the SQLite operator `LIKE` is modelled by
  `likeMatch`, including its `%` and `_` wildcards and its ASCII case
  folding;
* the Python post-processing of `Database.search` (keyword splitting,
  `str.strip`, the `in` substring test, the comma-space join) is translated
  function by function.  The Python method `str.lower` is modelled by ASCII
  folding (`Char.toLower`); this is exact on ASCII data.
-/

namespace ProfileStore

/-- ASCII lowercasing of a character list: models the SQLite function
`lower` (which folds `A`–`Z` only) and, restricted to ASCII, the Python
method `str.lower`. -/
def lowerChars (l : List Char) : List Char :=
  l.map Char.toLower

/-- Acceptance of some suffix: `anySuffix f s` is true when `f` accepts
some suffix of `s` (including `s` itself and the empty suffix). -/
def anySuffix (f : List Char → Bool) : List Char → Bool
  | [] => f []
  | c :: s => f (c :: s) || anySuffix f s

/-- SQLite `LIKE` pattern matching (no ESCAPE clause): `%` matches any
sequence of characters, `_` matches exactly one character, and any other
pattern character compares equal up to ASCII case folding, exactly as
the default `LIKE` of SQLite does. -/
def likeMatch : List Char → List Char → Bool
  | [] => fun s => s.isEmpty
  | p :: ps => fun s =>
    if p = '%' then anySuffix (fun t => likeMatch ps t) s
    else
      match s with
      | [] => false
      | c :: t =>
        if p = '_' then likeMatch ps t
        else (p.toLower == c.toLower) && likeMatch ps t

/-- One per-field LIKE condition of `Database.search`, of the form
`lower(field) LIKE ?` with the raw keyword interpolated between two
percent signs to build the pattern, which is then matched against the
`lower`-folded field. -/
def likeCond (keyword field : String) : Bool :=
  likeMatch ('%' :: (keyword.data ++ ['%'])) (lowerChars field.data)

/-- The same condition on a nullable column: in SQL, `lower(NULL) LIKE p`
is `NULL`, which is not true, so a `NULL` field never matches. -/
def optLikeCond (keyword : String) : Option String → Bool
  | none => false
  | some s => likeCond keyword s

/-- One row of the `profiles` table.  `name`, `role`, `description` and
`keywords` are the required upsert arguments; `company_name` and
`linkedin_url` default to `NULL`; `updated_at` is the write timestamp. -/
structure Profile where
  user_id : String
  name : String
  role : String
  description : String
  keywords : String
  company_name : Option String
  linkedin_url : Option String
  updated_at : Nat
deriving DecidableEq

/-- The `WHERE` clause of `Database.search`: the disjunction of the six
per-field `LIKE` conditions. -/
def matchesProfile (keyword : String) (p : Profile) : Bool :=
  likeCond keyword p.name || likeCond keyword p.role ||
  likeCond keyword p.description || likeCond keyword p.keywords ||
  optLikeCond keyword p.company_name || optLikeCond keyword p.linkedin_url

/-- The `score` column of `Database.search`: the sum of six
`CASE WHEN lower(field) LIKE ? THEN 1 ELSE 0 END` terms. -/
def score (keyword : String) (p : Profile) : Nat :=
  (if likeCond keyword p.name then 1 else 0) +
  (if likeCond keyword p.role then 1 else 0) +
  (if likeCond keyword p.description then 1 else 0) +
  (if likeCond keyword p.keywords then 1 else 0) +
  (if optLikeCond keyword p.company_name then 1 else 0) +
  (if optLikeCond keyword p.linkedin_url then 1 else 0)

/-- The order of `ORDER BY score DESC, updated_at DESC`: `a` may precede
`b` when `a` scores strictly higher, or the scores tie and `a` is at least
as recently updated. -/
def rankLe (keyword : String) (a b : Profile) : Prop :=
  score keyword b < score keyword a ∨
    (score keyword b = score keyword a ∧ b.updated_at ≤ a.updated_at)

instance (keyword : String) : DecidableRel (rankLe keyword) := fun a b => by
  unfold rankLe; exact inferInstance

instance (keyword : String) : IsTotal Profile (rankLe keyword) where
  total a b := by
    unfold rankLe
    rcases Nat.lt_trichotomy (score keyword a) (score keyword b) with h | h | h
    · exact Or.inr (Or.inl h)
    · rcases Nat.le_total a.updated_at b.updated_at with hu | hu
      · exact Or.inr (Or.inr ⟨h, hu⟩)
      · exact Or.inl (Or.inr ⟨h.symm, hu⟩)
    · exact Or.inl (Or.inl h)

instance (keyword : String) : IsTrans Profile (rankLe keyword) where
  trans a b c hab hbc := by
    unfold rankLe at *
    rcases hab with h1 | ⟨h1, h1u⟩ <;> rcases hbc with h2 | ⟨h2, h2u⟩
    · exact Or.inl (by omega)
    · exact Or.inl (by omega)
    · exact Or.inl (by omega)
    · exact Or.inr ⟨by omega, Nat.le_trans h2u h1u⟩

/-- The rows selected and ordered by the SQL of `Database.search`
(before `LIMIT` and before the Python post-processing): the qualifying
rows sorted by score descending then `updated_at` descending, stably with
respect to storage order. -/
def searchRanked (db : List Profile) (keyword : String) : List Profile :=
  List.insertionSort (rankLe keyword) (db.filter (matchesProfile keyword))

/-- Default whitespace of `str.strip` in Python (no argument), on the
ASCII range. -/
def isPySpace (c : Char) : Bool :=
  c == ' ' || c == '\t' || c == '\n' || c == '\r' || c == '\x0b' || c == '\x0c'

/-- Python `str.strip` with no argument: drop leading and trailing
whitespace. -/
def pyStrip (l : List Char) : List Char :=
  ((l.dropWhile isPySpace).reverse.dropWhile isPySpace).reverse

/-- Python `str.split` at a comma separator: split on every comma,
keeping empty pieces, so the split of the empty string is a list holding
one empty string. -/
def splitCommaCh : List Char → List (List Char)
  | [] => [[]]
  | c :: t =>
    if c = ',' then [] :: splitCommaCh t
    else
      match splitCommaCh t with
      | [] => [[c]]
      | h :: r => (c :: h) :: r

/-- Prefix step of the Python `needle in hay` substring test (case
sensitive, exact). -/
def isPrefixCh : List Char → List Char → Bool
  | [], _ => true
  | _ :: _, [] => false
  | a :: as, b :: bs => a == b && isPrefixCh as bs

/-- Python `needle in hay` substring test, by scanning every suffix. -/
def pyContains (needle : List Char) : List Char → Bool
  | [] => isPrefixCh needle []
  | c :: t => isPrefixCh needle (c :: t) || pyContains needle t

/-- The list `klist` of `Database.search`: split the stored `keywords` on
commas, strip each piece, and drop the pieces that strip to empty. -/
def klistOf (p : Profile) : List (List Char) :=
  ((splitCommaCh p.keywords.data).map pyStrip).filter (fun t => !t.isEmpty)

/-- The `matched` list of `Database.search`: every stored keyword term
whose `lower()` contains the raw search keyword, then the literal label
`name` if the keyword occurs in the lowered name, then the literal label
`company` if it occurs in the lowered company name (`None` read as the
empty string). -/
def matchedList (keyword : String) (p : Profile) : List (List Char) :=
  (klistOf p).filter (fun k => pyContains keyword.data (lowerChars k)) ++
  (if pyContains keyword.data (lowerChars p.name.data) then
    ["name".data] else []) ++
  (if pyContains keyword.data (lowerChars (p.company_name.getD "").data) then
    ["company".data] else [])

/-- Join of a list of character lists with a comma-space separator, as
the Python join used for `matched_keywords`. -/
def joinCommaSpace : List (List Char) → List Char
  | [] => []
  | [x] => x
  | x :: y :: t => x ++ ',' :: ' ' :: joinCommaSpace (y :: t)

/-- The `matched_keywords` string of a search result: the comma-space
join of the matched list when it is nonempty, and the literal fallback
"profile match" otherwise. -/
def matchedKeywordsStr (keyword : String) (p : Profile) : String :=
  if matchedList keyword p = [] then "profile match"
  else String.mk (joinCommaSpace (matchedList keyword p))

/-- One element of the list returned by `Database.search`: the profile
fields (without `updated_at` and without the internal score) plus the
`matched_keywords` explanation. -/
structure SearchResult where
  user_id : String
  name : String
  role : String
  description : String
  keywords : String
  company_name : Option String
  linkedin_url : Option String
  matched_keywords : String
deriving DecidableEq

/-- The Python dict built for each returned row of `Database.search`. -/
def toResult (keyword : String) (p : Profile) : SearchResult :=
  { user_id := p.user_id
    name := p.name
    role := p.role
    description := p.description
    keywords := p.keywords
    company_name := p.company_name
    linkedin_url := p.linkedin_url
    matched_keywords := matchedKeywordsStr keyword p }

/-- The default of the `limit` parameter of `Database.search`. -/
def searchDefaultLimit : Nat := 20

/-- Model of `Database.search`: qualifying rows, ordered, truncated to
`limit`, and mapped to result records. -/
def search (db : List Profile) (keyword : String) (limit : Nat) :
    List SearchResult :=
  ((searchRanked db keyword).take limit).map (toResult keyword)

/-- Model of `Database.upsert_profile`: `INSERT ... ON CONFLICT(user_id) DO UPDATE`
with every field taken from the excluded row.  If a row with this
`user_id` exists it is replaced in place (the rowid, hence the storage
position, is kept); otherwise the new row is appended.  `now` stands for
`int(time.time())` at the moment of the write. -/
def upsert_profile (db : List Profile)
    (user_id name role description keywords : String)
    (company_name linkedin_url : Option String) (now : Nat) : List Profile :=
  let newRow : Profile :=
    ⟨user_id, name, role, description, keywords, company_name, linkedin_url, now⟩
  if db.any (fun p => p.user_id == user_id) then
    db.map (fun p => if p.user_id == user_id then newRow else p)
  else
    db ++ [newRow]

/-- Model of `Database.get_profile`: a SELECT with a WHERE clause on the
key followed by fetchone — the first row with this key, or `None`. -/
def get_profile (db : List Profile) (user_id : String) : Option Profile :=
  db.find? (fun p => p.user_id == user_id)

/-- The database states reachable from a fresh (empty) `profiles` table by
the write operations of `Database` (only `upsert_profile` writes;
`get_profile` and `search` are `SELECT`s and do not change the table). -/
inductive Reachable : List Profile → Prop
  | init : Reachable []
  | upsert (db : List Profile)
      (user_id name role description keywords : String)
      (company_name linkedin_url : Option String) (now : Nat) :
      Reachable db →
      Reachable (upsert_profile db user_id name role description keywords
        company_name linkedin_url now)

/-- The public operations of `Database` (omitting the startup migration):
`upsert_profile` is the only one that writes the `profiles` table;
`get_profile` and `search` only run `SELECT`s. -/
inductive DbOp
  | upsertOp (user_id name role description keywords : String)
      (company_name linkedin_url : Option String) (now : Nat)
  | getOp (user_id : String)
  | searchOp (keyword : String) (limit : Nat)

/-- The effect of each public operation on the stored table. -/
def applyOp (db : List Profile) : DbOp → List Profile
  | DbOp.upsertOp user_id name role description keywords company_name linkedin_url now =>
      upsert_profile db user_id name role description keywords company_name linkedin_url now
  | DbOp.getOp _ => db
  | DbOp.searchOp _ _ => db

/-- Keywords free of the two LIKE wildcards `%` and `_`.  For such
keywords a LIKE condition is a pure case-insensitive substring test; a
keyword containing a wildcard is interpreted as a pattern instead. -/
def wildcardFree (l : List Char) : Bool :=
  l.all fun c => !(c == '%' || c == '_')

/-- The searchable fields of a record, as named by the specification:
name, role, description, keywords, and the optional company name and
LinkedIn URL when present (a `NULL` optional field is absent). -/
def searchableFields (p : Profile) : List String :=
  [p.name, p.role, p.description, p.keywords] ++
    p.company_name.toList ++ p.linkedin_url.toList

/-- The substring notion of the specification: the lowercased keyword
occurs as a contiguous substring of the lowercase of the field. -/
def occursIn (keyword field : String) : Prop :=
  lowerChars keyword.data <:+: lowerChars field.data

instance (keyword field : String) : Decidable (occursIn keyword field) := by
  unfold occursIn
  exact inferInstance

/-- The six per-field match outcomes of a record, in the order of the
`score` expression of the SQL. -/
def matchFlags (keyword : String) (p : Profile) : List Bool :=
  [likeCond keyword p.name, likeCond keyword p.role,
   likeCond keyword p.description, likeCond keyword p.keywords,
   optLikeCond keyword p.company_name, optLikeCond keyword p.linkedin_url]

/-- Outcome of one startup migration step: the column list after the
step, whether startup was aborted by it, and the error it printed to the
log, if any. -/
structure MigrationOutcome where
  columns : List String
  startupAborted : Bool
  loggedError : Option String
deriving DecidableEq

/-- Model of the migration methods of `Database` (they are identical up
to the column name).  The body mirrors the Python: look for the column in
the PRAGMA column list; if missing, run the ALTER TABLE, whose outcome is
the `alterResult` argument; any exception is caught by the bare
`except Exception` handler, which prints the error and returns normally,
so the constructor never aborts. -/
def migrate_add_column (column : String) (cols : List String)
    (alterResult : Except String (List String)) : MigrationOutcome :=
  if column ∈ cols then
    { columns := cols, startupAborted := false, loggedError := none }
  else
    match alterResult with
    | Except.ok newCols =>
        { columns := newCols, startupAborted := false, loggedError := none }
    | Except.error e =>
        { columns := cols, startupAborted := false,
          loggedError := some ("Migration error: " ++ e) }

/-- Model of `Database._migrate_add_company_name`. -/
def migrate_add_company_name : List String →
    Except String (List String) → MigrationOutcome :=
  migrate_add_column "company_name"

/-- Model of `Database._migrate_add_linkedin_url`. -/
def migrate_add_linkedin_url : List String →
    Except String (List String) → MigrationOutcome :=
  migrate_add_column "linkedin_url"

/-! ### Helper lemmas -/

theorem upsert_profile_cons (p : Profile) (t : List Profile)
    (user_id name role description keywords : String)
    (company_name linkedin_url : Option String) (now : Nat)
    (hp : (p.user_id == user_id) = false) :
    upsert_profile (p :: t) user_id name role description keywords
        company_name linkedin_url now
      = p :: upsert_profile t user_id name role description keywords
          company_name linkedin_url now := by
  unfold upsert_profile
  simp only [List.any_cons, hp, Bool.false_or]
  cases h : t.any (fun q => q.user_id == user_id) with
  | true =>
    rw [if_pos rfl, if_pos rfl, List.map_cons]
    simp [hp]
  | false =>
    rw [if_neg (by simp), if_neg (by simp)]
    simp

theorem anySuffix_true (f : List Char → Bool) (hf : f [] = true) :
    ∀ s : List Char, anySuffix f s = true := by
  intro s
  induction s with
  | nil => exact hf
  | cons c t ih => simp [anySuffix, ih]

theorem likeMatch_percent_eq (ps : List Char) (s : List Char) :
    likeMatch ('%' :: ps) s = anySuffix (fun t => likeMatch ps t) s := by
  simp [likeMatch]

theorem likeMatch_percent_percent (s : List Char) :
    likeMatch ['%', '%'] s = true := by
  rw [likeMatch_percent_eq]
  refine anySuffix_true _ ?_ s
  show likeMatch ['%'] [] = true
  rw [likeMatch_percent_eq]
  rfl

theorem toLower_toLower (c : Char) : c.toLower.toLower = c.toLower := by
  have hval : ∀ n : Nat, Nat.isValidChar n → (Char.ofNat n).toNat = n := by
    intro n hn
    simp [Char.ofNat, hn, Char.ofNatAux, Char.toNat, UInt32.toNat,
      BitVec.toNat_ofNatLt]
  by_cases h : c.toNat ≥ 65 ∧ c.toNat ≤ 90
  · have h1 : c.toLower = Char.ofNat (c.toNat + 32) := by
      show (if c.toNat ≥ 65 ∧ c.toNat ≤ 90 then Char.ofNat (c.toNat + 32)
        else c) = _
      rw [if_pos h]
    have h2 : (Char.ofNat (c.toNat + 32)).toNat = c.toNat + 32 :=
      hval _ (Or.inl (by omega))
    rw [h1]
    show (if (Char.ofNat (c.toNat + 32)).toNat ≥ 65 ∧
        (Char.ofNat (c.toNat + 32)).toNat ≤ 90 then
      Char.ofNat ((Char.ofNat (c.toNat + 32)).toNat + 32)
      else Char.ofNat (c.toNat + 32)) = _
    rw [if_neg (by omega)]
  · have h1 : c.toLower = c := by
      show (if c.toNat ≥ 65 ∧ c.toNat ≤ 90 then Char.ofNat (c.toNat + 32)
        else c) = c
      rw [if_neg h]
    rw [h1, h1]

theorem lowerChars_idem (l : List Char) :
    lowerChars (lowerChars l) = lowerChars l := by
  unfold lowerChars
  rw [List.map_map]
  exact List.map_congr_left (fun c _ => toLower_toLower c)

theorem anySuffix_iff (f : List Char → Bool) :
    ∀ s, (anySuffix f s = true ↔ ∃ t, t <:+ s ∧ f t = true) := by
  intro s
  induction s with
  | nil =>
    constructor
    · intro h
      exact ⟨[], List.suffix_refl [], h⟩
    · rintro ⟨t, hts, hft⟩
      rw [List.suffix_nil] at hts
      subst hts
      exact hft
  | cons c s ih =>
    simp only [anySuffix, Bool.or_eq_true, ih]
    constructor
    · rintro (h | ⟨t, hts, hft⟩)
      · exact ⟨c :: s, List.suffix_refl _, h⟩
      · exact ⟨t, List.IsSuffix.trans hts (List.suffix_cons c s), hft⟩
    · rintro ⟨t, hts, hft⟩
      rcases List.suffix_cons_iff.mp hts with rfl | h2
      · exact Or.inl hft
      · exact Or.inr ⟨t, h2, hft⟩

theorem exists_suffix_map (f : Char → Char) :
    ∀ (s m : List Char), m <:+ s.map f → ∃ t, t <:+ s ∧ t.map f = m := by
  intro s
  induction s with
  | nil =>
    intro m hm
    rw [List.map_nil, List.suffix_nil] at hm
    exact ⟨[], List.suffix_refl [], by simp [hm]⟩
  | cons c s ih =>
    intro m hm
    rw [List.map_cons, List.suffix_cons_iff] at hm
    rcases hm with hm | hm
    · exact ⟨c :: s, List.suffix_refl _, by rw [List.map_cons, hm]⟩
    · obtain ⟨t, hts, htm⟩ := ih m hm
      exact ⟨t, List.IsSuffix.trans hts (List.suffix_cons c s), htm⟩

theorem likeMatch_percent_nil (s : List Char) : likeMatch ['%'] s = true := by
  rw [likeMatch_percent_eq]
  exact anySuffix_true _ rfl s

theorem wildcardFree_cons (a : Char) (l : List Char)
    (h : wildcardFree (a :: l) = true) :
    a ≠ '%' ∧ a ≠ '_' ∧ wildcardFree l = true := by
  simp only [wildcardFree, List.all_cons, Bool.and_eq_true] at h ⊢
  obtain ⟨h1, h2⟩ := h
  rw [Bool.not_eq_true', Bool.or_eq_false_iff] at h1
  exact ⟨beq_eq_false_iff_ne.mp h1.1, beq_eq_false_iff_ne.mp h1.2, h2⟩

theorem likeMatch_cons_char (a : Char) (ps : List Char)
    (ha1 : a ≠ '%') (ha2 : a ≠ '_') :
    (likeMatch (a :: ps) [] = false) ∧
    (∀ c t, likeMatch (a :: ps) (c :: t)
      = ((a.toLower == c.toLower) && likeMatch ps t)) := by
  constructor
  · simp [likeMatch, ha1]
  · intro c t
    simp [likeMatch, ha1, ha2]

theorem likeMatch_literal :
    ∀ kw : List Char, wildcardFree kw = true →
    ∀ s : List Char,
      (likeMatch (kw ++ ['%']) s = true ↔ lowerChars kw <+: lowerChars s) := by
  intro kw
  induction kw with
  | nil =>
    intro _ s
    simp only [List.nil_append]
    rw [likeMatch_percent_nil]
    simp [lowerChars, List.nil_prefix]
  | cons a as ih =>
    intro h s
    obtain ⟨ha1, ha2, has⟩ := wildcardFree_cons a as h
    cases s with
    | nil =>
      rw [List.cons_append, (likeMatch_cons_char a (as ++ ['%']) ha1 ha2).1]
      simp [lowerChars, List.prefix_nil]
    | cons c t =>
      rw [List.cons_append, (likeMatch_cons_char a (as ++ ['%']) ha1 ha2).2 c t,
        Bool.and_eq_true, beq_iff_eq, ih has t]
      simp [lowerChars, List.cons_prefix_cons]

theorem likeMatch_substring (kw : List Char) (h : wildcardFree kw = true)
    (s : List Char) :
    likeMatch ('%' :: (kw ++ ['%'])) s = true ↔
      lowerChars kw <:+: lowerChars s := by
  rw [likeMatch_percent_eq, anySuffix_iff]
  constructor
  · rintro ⟨t, hts, hm⟩
    have hp := (likeMatch_literal kw h t).mp hm
    exact List.infix_iff_prefix_suffix.mpr
      ⟨lowerChars t, hp, List.IsSuffix.map Char.toLower hts⟩
  · intro hinf
    rcases List.infix_iff_prefix_suffix.mp hinf with ⟨m, hpre, hsuf⟩
    obtain ⟨t, hts, htm⟩ := exists_suffix_map Char.toLower s m hsuf
    refine ⟨t, hts, (likeMatch_literal kw h t).mpr ?_⟩
    show lowerChars _ <+: lowerChars _
    unfold lowerChars
    rw [htm]
    exact hpre

theorem likeCond_iff (keyword : String)
    (h : wildcardFree keyword.data = true) (field : String) :
    likeCond keyword field = true ↔ occursIn keyword field := by
  unfold likeCond occursIn
  rw [likeMatch_substring keyword.data h (lowerChars field.data),
    lowerChars_idem]

theorem matchesProfile_iff (keyword : String)
    (h : wildcardFree keyword.data = true) (p : Profile) :
    matchesProfile keyword p = true ↔
      ∃ f ∈ searchableFields p, occursIn keyword f := by
  rcases p with ⟨uid, nm, rl, ds, kw, cn, lu, ua⟩
  cases cn <;> cases lu <;>
    simp only [matchesProfile, searchableFields, optLikeCond, Option.toList,
      Bool.or_eq_true, Bool.false_eq_true, or_false, likeCond_iff keyword h,
      List.append_nil, List.nil_append, List.cons_append, List.mem_cons,
      List.mem_singleton, List.not_mem_nil, exists_eq_or_imp,
      exists_eq_left, false_or, or_assoc]

theorem score_eq_countP (keyword : String)
    (h : wildcardFree keyword.data = true) (p : Profile) :
    score keyword p
      = (searchableFields p).countP (fun f => decide (occursIn keyword f)) := by
  have hc : ∀ f : String, (if likeCond keyword f then 1 else 0)
      = (if decide (occursIn keyword f) = true then 1 else 0) := by
    intro f
    by_cases hf : occursIn keyword f
    · rw [if_pos ((likeCond_iff keyword h f).mpr hf), if_pos (by simp [hf])]
    · rw [if_neg (fun hl => hf ((likeCond_iff keyword h f).mp hl)),
        if_neg (by simp [hf])]
  rcases p with ⟨uid, nm, rl, ds, kw, cn, lu, ua⟩
  cases cn <;> cases lu <;>
    simp only [score, searchableFields, optLikeCond, Option.toList,
      List.append_nil, List.nil_append, List.cons_append,
      List.countP_cons, List.countP_nil, hc, Bool.false_eq_true, if_false] <;>
    omega

theorem score_eq_countP_flags (keyword : String) (p : Profile) :
    score keyword p = (matchFlags keyword p).countP id := by
  simp only [score, matchFlags, List.countP_cons, List.countP_nil, id_eq]
  omega

theorem countP_id_mono :
    ∀ l₁ l₂ : List Bool,
      List.Forall₂ (fun a b => a = true → b = true) l₁ l₂ →
      l₁.countP id ≤ l₂.countP id := by
  intro l₁ l₂ h
  induction h with
  | nil => exact Nat.le_refl _
  | @cons a b t₁ t₂ hab htl ih =>
    rw [List.countP_cons, List.countP_cons]
    cases hb : b with
    | true =>
      cases ha : a with
      | true =>
        simp only [id_eq]
        simp
        omega
      | false =>
        simp only [id_eq]
        simp
        omega
    | false =>
      cases ha : a with
      | true =>
        have hbt := hab ha
        rw [hb] at hbt
        exact absurd hbt Bool.false_ne_true
      | false =>
        simp only [id_eq]
        simp
        omega

theorem likeCond_empty (field : String) : likeCond "" field = true := by
  unfold likeCond
  exact likeMatch_percent_percent _

theorem matchesProfile_empty (p : Profile) : matchesProfile "" p = true := by
  unfold matchesProfile
  rw [likeCond_empty]
  rfl

theorem searchRanked_length_of_all_match (db : List Profile) (keyword : String)
    (h : ∀ p ∈ db, matchesProfile keyword p = true) :
    (searchRanked db keyword).length = db.length := by
  unfold searchRanked
  rw [(List.perm_insertionSort (rankLe keyword) _).length_eq,
    List.filter_eq_self.mpr h]

/-! ### Claim theorems -/

/-- C3: For every pair of records in the list returned by
`search(keyword, limit)`, if one precedes the other then either its score
is strictly greater, or the scores are equal and its `updated_at` is at
least that of the other.  The pairwise order is stated on the ranked, truncated
row list; the returned list is its image under `toResult`, which preserves
positions. -/
theorem search_results_ordered (db : List Profile) (keyword : String) (limit : Nat) :
    List.Pairwise (fun a b => score keyword b < score keyword a ∨
        (score keyword a = score keyword b ∧ b.updated_at ≤ a.updated_at))
      ((searchRanked db keyword).take limit) ∧
    search db keyword limit
      = ((searchRanked db keyword).take limit).map (toResult keyword) := by
  refine ⟨?_, rfl⟩
  have hs : List.Pairwise (rankLe keyword) (searchRanked db keyword) :=
    List.sorted_insertionSort (rankLe keyword) _
  have ht := List.Pairwise.sublist (List.take_sublist limit _) hs
  refine ht.imp ?_
  intro a b hab
  rcases hab with h | ⟨h, hu⟩
  · exact Or.inl h
  · exact Or.inr ⟨h.symm, hu⟩

/-- C4: The list returned by `search` never exceeds `limit` elements,
and the default limit of the source (`limit: int = 20`) is 20, so a
default-limit search returns at most 20 records. -/
theorem search_respects_limit (db : List Profile) (keyword : String) (limit : Nat) :
    (search db keyword limit).length ≤ limit ∧
    searchDefaultLimit = 20 ∧
    (search db keyword searchDefaultLimit).length ≤ 20 := by
  have h : ∀ lim : Nat, (search db keyword lim).length ≤ lim := by
    intro lim
    unfold search
    rw [List.length_map, List.length_take]
    exact min_le_left _ _
  exact ⟨h limit, rfl, h searchDefaultLimit⟩

/-- C5: Upsert followed by get is a round-trip with last-write-wins
semantics: whatever the previous state, after
`upsert_profile(user_id, ...)`, `get_profile(user_id)` returns exactly the
record just written — every field replaced wholesale, with `updated_at`
equal to the write time. -/
theorem upsert_get_roundtrip (db : List Profile)
    (user_id name role description keywords : String)
    (company_name linkedin_url : Option String) (now : Nat) :
    get_profile (upsert_profile db user_id name role description keywords
        company_name linkedin_url now) user_id
      = some ⟨user_id, name, role, description, keywords, company_name,
          linkedin_url, now⟩ := by
  induction db with
  | nil =>
    simp [upsert_profile, get_profile]
  | cons p t ih =>
    cases hp : p.user_id == user_id with
    | true =>
      unfold upsert_profile
      rw [if_pos (by simp [List.any_cons, hp])]
      unfold get_profile
      rw [List.map_cons, if_pos hp, List.find?_cons_of_pos _ (by simp)]
    | false =>
      rw [upsert_profile_cons p t user_id name role description keywords
        company_name linkedin_url now hp]
      unfold get_profile
      rw [List.find?_cons_of_neg _ (by simp [hp])]
      exact ih

/-- C8: The empty keyword is defined behavior, not an error: every
stored record qualifies (the two-percent pattern matches every non-null field,
and `name` is always present), so `search("", limit)` returns
`min limit (number of profiles)` records. -/
theorem search_empty_keyword (db : List Profile) (limit : Nat) :
    (∀ p : Profile, matchesProfile "" p = true) ∧
    (search db "" limit).length = min limit db.length := by
  refine ⟨matchesProfile_empty, ?_⟩
  unfold search
  rw [List.length_map, List.length_take,
    searchRanked_length_of_all_match db "" (fun p _ => matchesProfile_empty p)]

theorem find?_map_upsert_other (t : List Profile) (user_id other : String)
    (newRow : Profile) (hnew : (newRow.user_id == other) = false)
    (huid : (user_id == other) = false) :
    (t.map (fun p => if p.user_id == user_id then newRow else p)).find?
        (fun p => p.user_id == other)
      = t.find? (fun p => p.user_id == other) := by
  induction t with
  | nil => rfl
  | cons q t ih =>
    cases hq : q.user_id == user_id with
    | true =>
      have hqo : (q.user_id == other) = false := by
        rw [beq_iff_eq] at hq
        rw [hq]
        exact huid
      rw [List.map_cons, if_pos hq, List.find?_cons, List.find?_cons, hnew, hqo]
      exact ih
    | false =>
      rw [List.map_cons, if_neg (by simp [hq]), List.find?_cons, List.find?_cons]
      cases hqo : q.user_id == other with
      | true => rfl
      | false => exact ih

/-- C10: Frame property: an upsert for one owner leaves the record of
every other owner unchanged, and `get_profile` and `search` are read-only
— they leave the stored table exactly as it was. -/
theorem upsert_frame (db : List Profile)
    (user_id name role description keywords : String)
    (company_name linkedin_url : Option String) (now : Nat)
    (other : String) (h : other ≠ user_id) :
    get_profile (upsert_profile db user_id name role description keywords
        company_name linkedin_url now) other
      = get_profile db other ∧
    (∀ uid, applyOp db (DbOp.getOp uid) = db) ∧
    (∀ keyword limit, applyOp db (DbOp.searchOp keyword limit) = db) := by
  refine ⟨?_, fun _ => rfl, fun _ _ => rfl⟩
  have hne : (user_id == other) = false := beq_eq_false_iff_ne.mpr (Ne.symm h)
  unfold upsert_profile
  cases hany : db.any (fun p => p.user_id == user_id) with
  | false =>
    rw [if_neg (by simp)]
    unfold get_profile
    have hnil : List.find? (fun p => p.user_id == other)
        [(⟨user_id, name, role, description, keywords,
          company_name, linkedin_url, now⟩ : Profile)] = none := by
      simp [List.find?_cons, hne]
    rw [List.find?_append, hnil, Option.or_none]
  | true =>
    rw [if_pos rfl]
    unfold get_profile
    exact find?_map_upsert_other db user_id other _ hne hne

/-- Witness for C10 at concrete inputs. -/
theorem upsert_frame_witness :
    ("b" : String) ≠ "a" ∧
    (get_profile (upsert_profile [⟨"b", "Bob", "dev", "d", "k", none, none, 3⟩]
        "a" "Ann" "ceo" "e" "j" none none 9) "b"
      = get_profile [⟨"b", "Bob", "dev", "d", "k", none, none, 3⟩] "b" ∧
    (∀ uid, applyOp [⟨"b", "Bob", "dev", "d", "k", none, none, 3⟩] (DbOp.getOp uid)
      = [⟨"b", "Bob", "dev", "d", "k", none, none, 3⟩]) ∧
    (∀ keyword limit,
      applyOp [⟨"b", "Bob", "dev", "d", "k", none, none, 3⟩]
          (DbOp.searchOp keyword limit)
        = [⟨"b", "Bob", "dev", "d", "k", none, none, 3⟩])) :=
  ⟨by decide, upsert_frame [⟨"b", "Bob", "dev", "d", "k", none, none, 3⟩]
    "a" "Ann" "ceo" "e" "j" none none 9 "b" (by decide)⟩

/-- C6: In every reachable store state there is at most one profile
row per distinct `owner_id`: the key list of the table has no duplicates.
An upsert for an already-seen owner replaces the row in place instead of
inserting a second one. -/
theorem reachable_unique_owner (db : List Profile) (h : Reachable db) :
    (db.map Profile.user_id).Nodup := by
  induction h with
  | init => simp
  | upsert db user_id name role description keywords company_name linkedin_url now hr ih =>
    unfold upsert_profile
    cases hany : db.any (fun p => p.user_id == user_id) with
    | true =>
      rw [if_pos rfl, List.map_map]
      have heq : db.map (Profile.user_id ∘ fun p =>
          if p.user_id == user_id then
            (⟨user_id, name, role, description, keywords,
              company_name, linkedin_url, now⟩ : Profile) else p)
          = db.map Profile.user_id := by
        refine List.map_congr_left (fun a _ => ?_)
        show Profile.user_id (if (a.user_id == user_id) = true then
          (⟨user_id, name, role, description, keywords,
            company_name, linkedin_url, now⟩ : Profile) else a) = a.user_id
        cases ha : a.user_id == user_id with
        | true =>
          rw [if_pos rfl]
          exact (beq_iff_eq.mp ha).symm
        | false =>
          rw [if_neg (by simp)]
      rw [heq]
      exact ih
    | false =>
      rw [if_neg (by simp), List.map_append]
      rw [List.nodup_append]
      refine ⟨ih, by simp, ?_⟩
      intro x hx hx2
      simp only [List.map_cons, List.map_nil, List.mem_cons,
        List.not_mem_nil, or_false] at hx2
      rw [List.mem_map] at hx
      obtain ⟨p, hp, hpu⟩ := hx
      have hx3 : db.any (fun p => p.user_id == user_id) = true :=
        List.any_eq_true.mpr ⟨p, hp, by simp [hpu, hx2]⟩
      rw [hany] at hx3
      exact Bool.false_ne_true hx3

/-- C1 counterexample: with keyword a_c the stored record named abc is
returned by search — the underscore is interpreted as a LIKE wildcard and
matches the letter b — although the lowercased keyword occurs as a
substring of no searchable field, so the claimed if-and-only-if fails for
keywords containing LIKE wildcards. -/
theorem search_qualification_cex :
    search [⟨"u1", "abc", "", "", "", none, none, 0⟩] "a_c" 20
      = [⟨"u1", "abc", "", "", "", none, none, "profile match"⟩] ∧
    (∀ f ∈ searchableFields ⟨"u1", "abc", "", "", "", none, none, 0⟩,
      ¬ occursIn "a_c" f) :=
  ⟨by decide, by decide⟩

/-- C1 (amended): for every keyword free of the LIKE wildcards percent and
underscore, a record is in the ranked result set of `search` exactly when
it is stored and the lowercased keyword occurs as a substring of the
lowercase of at least one searchable field (name, role, description,
keywords, company_name, linkedin_url), regardless of the case of the
keyword; the returned list is that ranked set truncated to `limit` and
mapped to result records. -/
theorem search_qualification_iff_substring (db : List Profile)
    (keyword : String) (p : Profile) (limit : Nat)
    (hkw : wildcardFree keyword.data = true) :
    (p ∈ searchRanked db keyword ↔
      p ∈ db ∧ ∃ f ∈ searchableFields p, occursIn keyword f) ∧
    search db keyword limit
      = ((searchRanked db keyword).take limit).map (toResult keyword) := by
  refine ⟨?_, rfl⟩
  unfold searchRanked
  rw [(List.perm_insertionSort (rankLe keyword) _).mem_iff, List.mem_filter,
    matchesProfile_iff keyword hkw p]

/-- Witness for the amended C1 at concrete inputs. -/
theorem search_qualification_iff_substring_witness :
    wildcardFree "ai".data = true ∧
    ((⟨"1", "Ann", "dev", "", "ai", none, none, 0⟩
        ∈ searchRanked [⟨"1", "Ann", "dev", "", "ai", none, none, 0⟩] "ai" ↔
      (⟨"1", "Ann", "dev", "", "ai", none, none, 0⟩ : Profile)
          ∈ [⟨"1", "Ann", "dev", "", "ai", none, none, 0⟩] ∧
        ∃ f ∈ searchableFields ⟨"1", "Ann", "dev", "", "ai", none, none, 0⟩,
          occursIn "ai" f) ∧
    search [⟨"1", "Ann", "dev", "", "ai", none, none, 0⟩] "ai" 20
      = ((searchRanked [⟨"1", "Ann", "dev", "", "ai", none, none, 0⟩]
          "ai").take 20).map (toResult "ai")) :=
  ⟨by decide, search_qualification_iff_substring
    [⟨"1", "Ann", "dev", "", "ai", none, none, 0⟩] "ai"
    ⟨"1", "Ann", "dev", "", "ai", none, none, 0⟩ 20 (by decide)⟩

/-- C2 counterexample: with keyword a_c the record named abc qualifies and
scores 1 (the underscore acts as a LIKE wildcard), yet the number of
searchable fields in which the keyword occurs as a substring is 0, so the
claimed equality between score and substring-match count fails for
keywords containing LIKE wildcards. -/
theorem score_counts_cex :
    search [⟨"u1", "abc", "", "", "", none, none, 0⟩] "a_c" 20
      = [⟨"u1", "abc", "", "", "", none, none, "profile match"⟩] ∧
    score "a_c" ⟨"u1", "abc", "", "", "", none, none, 0⟩ = 1 ∧
    (searchableFields ⟨"u1", "abc", "", "", "", none, none, 0⟩).countP
      (fun f => decide (occursIn "a_c" f)) = 0 :=
  ⟨by decide, by decide, by decide⟩

/-- C2 (amended): for every keyword free of the LIKE wildcards, the score
of a record equals the number of searchable fields (at most six) in which
the keyword occurs as a substring; and, for every keyword — wildcard or
not — a record whose per-field matches include those of another record
never scores lower.  The wildcard-free condition scopes only the
score-equals-count conjunct; the monotonicity conjunct holds
unconditionally. -/
theorem score_counts_matching_fields (keyword : String) (p q : Profile)
    (hsub : List.Forall₂ (fun a b => a = true → b = true)
      (matchFlags keyword p) (matchFlags keyword q)) :
    (wildcardFree keyword.data = true →
      score keyword p
        = (searchableFields p).countP (fun f => decide (occursIn keyword f))) ∧
    score keyword p ≤ score keyword q := by
  refine ⟨fun hkw => score_eq_countP keyword hkw p, ?_⟩
  rw [score_eq_countP_flags keyword p, score_eq_countP_flags keyword q]
  exact countP_id_mono _ _ hsub

/-- Witness for the amended C2 at concrete inputs. -/
theorem score_counts_matching_fields_witness :
    List.Forall₂ (fun a b => a = true → b = true)
      (matchFlags "a" ⟨"1", "x", "", "", "", none, none, 0⟩)
      (matchFlags "a" ⟨"2", "xa", "ya", "", "", none, none, 0⟩) ∧
    ((wildcardFree "a".data = true →
      score "a" ⟨"1", "x", "", "", "", none, none, 0⟩
        = (searchableFields ⟨"1", "x", "", "", "", none, none, 0⟩).countP
            (fun f => decide (occursIn "a" f))) ∧
      score "a" ⟨"1", "x", "", "", "", none, none, 0⟩
        ≤ score "a" ⟨"2", "xa", "ya", "", "", none, none, 0⟩) :=
  ⟨by decide,
    score_counts_matching_fields "a"
      ⟨"1", "x", "", "", "", none, none, 0⟩
      ⟨"2", "xa", "ya", "", "", none, none, 0⟩ (by decide)⟩

/-- C7: every record returned by `search` carries the matched-keywords
explanation computed by `toResult` from its stored profile — split the
stored keywords on commas, keep the terms whose lowercase contains the
search keyword, then append the literal labels name and company when
those fields contain it, joined by comma-space, with the fallback
"profile match" when nothing matched; in particular, upserting the Alice
profile of the concrete scenario and searching ai returns exactly that
record with matched_keywords equal to "ai". -/
theorem search_matched_keywords_explanation (db : List Profile)
    (keyword : String) (limit : Nat) (r : SearchResult)
    (hr : r ∈ search db keyword limit) :
    (∃ p ∈ db, matchesProfile keyword p = true ∧ r = toResult keyword p) ∧
    search (upsert_profile [] "1" "Alice" "AI founder" "builds agents"
        "ai,investor" none none 100) "ai" searchDefaultLimit
      = [⟨"1", "Alice", "AI founder", "builds agents", "ai,investor",
          none, none, "ai"⟩] := by
  refine ⟨?_, by decide⟩
  unfold search at hr
  rw [List.mem_map] at hr
  obtain ⟨p, hp, hpr⟩ := hr
  have hp2 : p ∈ searchRanked db keyword := List.mem_of_mem_take hp
  unfold searchRanked at hp2
  rw [(List.perm_insertionSort (rankLe keyword) _).mem_iff,
    List.mem_filter] at hp2
  exact ⟨p, hp2.1, hp2.2, hpr.symm⟩

/-- Witness for C7 at concrete inputs. -/
theorem search_matched_keywords_explanation_witness :
    (⟨"1", "Alice", "AI founder", "builds agents", "ai,investor", none, none,
        "ai"⟩ : SearchResult)
      ∈ search [⟨"1", "Alice", "AI founder", "builds agents", "ai,investor",
          none, none, 100⟩] "ai" 20 ∧
    ((∃ p ∈ [(⟨"1", "Alice", "AI founder", "builds agents", "ai,investor",
          none, none, 100⟩ : Profile)],
        matchesProfile "ai" p = true ∧
        (⟨"1", "Alice", "AI founder", "builds agents", "ai,investor", none,
          none, "ai"⟩ : SearchResult) = toResult "ai" p) ∧
      search (upsert_profile [] "1" "Alice" "AI founder" "builds agents"
          "ai,investor" none none 100) "ai" searchDefaultLimit
        = [⟨"1", "Alice", "AI founder", "builds agents", "ai,investor",
            none, none, "ai"⟩]) :=
  ⟨by decide, search_matched_keywords_explanation
    [⟨"1", "Alice", "AI founder", "builds agents", "ai,investor", none, none,
      100⟩]
    "ai" 20
    ⟨"1", "Alice", "AI founder", "builds agents", "ai,investor", none, none,
      "ai"⟩
    (by decide)⟩

/-- C9 counterexample: when the ALTER TABLE of the company_name migration
fails (here with a locked database), the bare except handler of the
source catches the error, logs it, and the constructor returns normally —
startup is not aborted, contradicting the claim that a migration failure
is fatal to startup. -/
theorem migration_failure_fatal_cex :
    (migrate_add_company_name []
        (Except.error "database is locked")).startupAborted = false ∧
    (migrate_add_company_name []
        (Except.error "database is locked")).loggedError
      = some "Migration error: database is locked" :=
  ⟨rfl, rfl⟩

/-- C9 (amended): a failing migration step is swallowed, not fatal: for
every column, column list and ALTER outcome, the migration step never
aborts startup, and when the column is missing and the ALTER fails the
error is only logged. -/
theorem migration_error_swallowed (column : String) (cols cols2 : List String)
    (e : String) :
    (migrate_add_column column cols (Except.error e)).startupAborted = false ∧
    (migrate_add_column column cols (Except.ok cols2)).startupAborted = false ∧
    (migrate_add_column column cols (Except.error e)).loggedError
      = if column ∈ cols then none else some ("Migration error: " ++ e) := by
  refine ⟨?_, ?_, ?_⟩ <;> by_cases hc : column ∈ cols <;>
    simp [migrate_add_column, hc]

/-- Witness for C6: a concrete reachable state (two upserts for the same
owner) whose key list is duplicate-free. -/
theorem reachable_unique_owner_witness :
    ((upsert_profile (upsert_profile [] "1" "A" "A" "d" "k" none none 5)
        "1" "B" "B" "e" "j" none none 9).map Profile.user_id).Nodup :=
  reachable_unique_owner _
    (Reachable.upsert _ "1" "B" "B" "e" "j" none none 9
      (Reachable.upsert _ "1" "A" "A" "d" "k" none none 5 Reachable.init))

end ProfileStore
